import Mathlib

/-!
Verification of the segmented downloader (`download_app.py`) against its
natural-language specification.  The Python source is shallowly embedded:
pure fragments become Lean functions, the per-segment worker and the
coordinator become explicit state-passing functions parametrised by a
network schedule, and the shared error slot is modelled by the order in
which failing workers acquire the lock.
-/

namespace DownloadApp

/-- Segment planning, from `_multi_threaded_download` lines 127-132:
`chunk_size = total_size // num_threads`; segment `i` has
`start = i * chunk_size` and
`end = start + chunk_size - 1` when `i < num_threads - 1`, else
`end = total_size - 1`.  Byte offsets are `Int` because a zero-length
segment has `end = start - 1` (which is `-1` when `start = 0`). -/
def seg (total_size num_threads : Nat) (i : Nat) : Int × Int :=
  let chunk_size := total_size / num_threads
  let start : Int := (i * chunk_size : Nat)
  (start, if i < num_threads - 1 then start + (chunk_size : Int) - 1
          else (total_size : Int) - 1)

/-- The list of all `num_threads` segments, in index order, as built by the
`for i in range(self.num_threads)` loop. -/
def segments (total_size num_threads : Nat) : List (Int × Int) :=
  (List.range num_threads).map (seg total_size num_threads)

/-- The bytes a correct server returns for `Range: bytes=a-b` against a
resource whose full content is `remote` (inclusive range, clamped to the
resource length). -/
def rangeBytes (remote : List Nat) (a b : Int) : List Nat :=
  (remote.drop a.toNat).take (b - a + 1).toNat

/-- One network attempt, as scheduled by the (modelled) environment:
`connFail e` is a failure of `requests.get`/`raise_for_status` itself (the
part file is not even opened); `midFail k e` delivers `k` bytes of the
response and then raises a transport error mid-stream; `success` delivers
the whole response body. -/
inductive Attempt
  | connFail (e : String)
  | midFail (k : Nat) (e : String)
  | success
deriving DecidableEq, Repr

/-- Predicate that is true exactly for a mid-stream transport failure (a failure that
happens after the part file was opened and some bytes may have been
written). -/
def Attempt.isMidFail : Attempt → Bool
  | .midFail _ _ => true
  | _ => false

/-- How a worker's retry loop ended: `ok` = the `break` after a full
response; `err e` = the final attempt failed and the error was recorded;
`fellThrough` = the `for attempt in range(retries)` loop body never ran
(only possible when `retries = 0`). -/
inductive SegOutcome
  | ok
  | err (e : String)
  | fellThrough
deriving DecidableEq, Repr

/-- State coming out of a worker's retry loop: the part file on disk
(`none` = never created), the per-attempt increments to the shared
downloaded-byte counter, the number of network requests issued, the
back-off sleeps performed, and the loop outcome. -/
structure LoopResult where
  file : Option (List Nat)
  adds : List Nat
  reads : Nat
  sleeps : List Nat
  outcome : SegOutcome
deriving DecidableEq, Repr

/-- The retry loop of `_download_segment` (lines 183-205).  `app` is the
file mode computed once before the loop (`'ab'` iff `resume_pos > 0`);
`rb` is the response body for the range request, whose header is likewise
computed once before the loop; `f` is the current part file; `idx` is the
Python `attempt` index (for the `2 ** attempt` back-off).  Opening the
file with `'wb'` truncates it; with `'ab'` it appends (creating it if
absent).  On a failed attempt with attempts remaining the worker sleeps
`2 ^ idx`; on the last attempt's failure it records the error. -/
def segLoop (app : Bool) (rb : List Nat) :
    Option (List Nat) → Nat → List Attempt → LoopResult
  | f, _, [] => ⟨f, [], 0, [], .fellThrough⟩
  | f, idx, a :: rest =>
    match a with
    | .success =>
      let base := if app then f.getD [] else []
      ⟨some (base ++ rb), [rb.length], 1, [], .ok⟩
    | .connFail e =>
      match rest with
      | [] => ⟨f, [], 1, [], .err e⟩
      | b :: t =>
        let r := segLoop app rb f (idx + 1) (b :: t)
        ⟨r.file, r.adds, 1 + r.reads, 2 ^ idx :: r.sleeps, r.outcome⟩
    | .midFail k e =>
      let base := if app then f.getD [] else []
      let f' := some (base ++ rb.take k)
      match rest with
      | [] => ⟨f', [(rb.take k).length], 1, [], .err e⟩
      | b :: t =>
        let r := segLoop app rb f' (idx + 1) (b :: t)
        ⟨r.file, (rb.take k).length :: r.adds, 1 + r.reads,
          2 ^ idx :: r.sleeps, r.outcome⟩

/-- Everything observable about one run of `_download_segment`: the final
part file, the increments to the shared counter in order (the initial
`resume_pos` credit first), network requests issued, sleeps, and outcome. -/
structure WorkerRun where
  file : Option (List Nat)
  adds : List Nat
  reads : Nat
  sleeps : List Nat
  outcome : SegOutcome
deriving DecidableEq, Repr

/-- Model of `_download_segment` (lines 166-205) for segment `[startI, endI]` of a
resource with content `remote`, given the initial part file `part0`
(`none` = absent) and the network schedule `attempts` (one entry per loop
iteration that would issue a request; its length is the retry limit).
`resume_pos` is the on-disk size; it is credited to the shared counter
before the full-segment check; if the part already covers the segment the
worker returns at once with no network traffic.  Otherwise the range start
and the file mode are fixed once and the retry loop runs. -/
def download_segment (remote : List Nat) (startI endI : Int)
    (part0 : Option (List Nat)) (attempts : List Attempt) : WorkerRun :=
  let resume_pos : Nat := (part0.getD []).length
  if (resume_pos : Int) ≥ endI - startI + 1 then
    ⟨part0, [resume_pos], 0, [], .ok⟩
  else
    let current_start := startI + (resume_pos : Int)
    let app := decide (0 < resume_pos)
    let rb := rangeBytes remote current_start endI
    let r := segLoop app rb part0 0 attempts
    ⟨r.file, resume_pos :: r.adds, r.reads, r.sleeps, r.outcome⟩

/-- Everything observable about one run of `_single_threaded_download`
(lines 94-123): the `.part` file after the run, the destination file
(`some` only after the `os.rename`), the value of the shared counter at
the end (the code *assigns* `resume_pos` and then adds chunk lengths),
requests issued, sleeps performed, and the printed download error if the
one request failed. -/
structure SingleRun where
  partFile : Option (List Nat)
  destination : Option (List Nat)
  total_downloaded : Nat
  reads : Nat
  sleeps : List Nat
  errored : Option String
deriving DecidableEq, Repr

/-- Model of `_single_threaded_download`: read the `.part` size as `resume_pos`,
send one request (`Range: bytes=resume_pos-` when resuming, no range
header otherwise — either way the correct server's body is
`remote.drop resume_pos`), stream it to the part file (`'ab'` when
resuming, `'wb'` otherwise), and on success rename the part file onto the
destination.  There is no retry loop: any transport failure is caught,
printed, and the function returns.  The schedule list is what the network
would answer to successive requests; the code consumes only its head (an
empty schedule is read as a connection failure). -/
def single_threaded_download (remote : List Nat) (part0 : Option (List Nat))
    (attempts : List Attempt) : SingleRun :=
  let resume_pos : Nat := (part0.getD []).length
  let rb := remote.drop resume_pos
  let base := if 0 < resume_pos then part0.getD [] else []
  match attempts with
  | .success :: _ =>
    ⟨none, some (base ++ rb), resume_pos + rb.length, 1, [], none⟩
  | .midFail k e :: _ =>
    ⟨some (base ++ rb.take k), none, resume_pos + (rb.take k).length, 1, [],
      some e⟩
  | .connFail e :: _ => ⟨part0, none, resume_pos, 1, [], some e⟩
  | [] => ⟨part0, none, resume_pos, 1, [], some "connection failed"⟩

/-- A part file as the merger sees it: absent, or present with a content
and a readability bit (an unreadable present file makes `open` raise
`IOError`). -/
inductive PartState
  | absent
  | file (content : List Nat) (readable : Bool)
deriving DecidableEq, Repr

/-- Predicate that is true exactly for a present-but-unreadable part file. -/
def PartState.unreadable : PartState → Bool
  | .file _ false => true
  | _ => false

/-- The content the merger appends for one part: nothing when the file is
absent, its bytes otherwise. -/
def PartState.contentD : PartState → List Nat
  | .absent => []
  | .file c _ => c

/-- Model of `_merge_files` (lines 207-216): open the destination with `'wb'`, then
for `i in range(num_threads)` append part `i`'s bytes *only if the part
file exists* (a missing part is silently skipped); opening an unreadable
part raises `IOError`, modelled as `Except.error ()`. -/
def merge_files (parts : Nat → PartState) (num_threads : Nat) :
    Except Unit (List Nat) :=
  (List.range num_threads).foldl
    (fun acc i =>
      match acc with
      | .error u => .error u
      | .ok out =>
        match parts i with
        | .absent => .ok out
        | .file c true => .ok (out ++ c)
        | .file _ false => .error ())
    (.ok [])

/-- The message format of line 204:
`f"Failed to download segment {index}: {e}"`. -/
def segErrMsg (index : Nat) (e : String) : String :=
  "Failed to download segment " ++ toString index ++ ": " ++ e

/-- The fatal error a finished worker would record: `some` of the
formatted message exactly when its retry loop exhausted all attempts. -/
def failMsg (index : Nat) (r : WorkerRun) : Option String :=
  match r.outcome with
  | .err e => some (segErrMsg index e)
  | _ => none

/-- The shared `self.error_occurred` slot.  Line 204 is a plain
assignment under the lock, so folding the recorded messages in lock
order overwrites unconditionally. -/
def recordErrors (msgs : List String) : Option String :=
  msgs.foldl (fun _ e => some e) none

/-- The observable outcome of `_multi_threaded_download` after all
workers have joined: the worker runs, the final shared counter, the error
slot, whether merge ran, the destination file, and whether verification
ran. -/
structure EngineResult where
  runs : List WorkerRun
  total_downloaded : Nat
  error_occurred : Option String
  merged : Bool
  destination : Option (List Nat)
  verifyRan : Bool
deriving DecidableEq, Repr

/-- The worker runs spawned by `_multi_threaded_download`, one per
segment, each on its own part file `parts0 i` with its own network
schedule `sched i`. -/
def engineRuns (remote : List Nat) (total_size num_threads : Nat)
    (parts0 : Nat → Option (List Nat)) (sched : Nat → List Attempt) :
    List WorkerRun :=
  (List.range num_threads).map (fun i =>
    download_segment remote (seg total_size num_threads i).1
      (seg total_size num_threads i).2 (parts0 i) (sched i))

/-- The fatal messages written to the shared error slot, in the order
`errOrder` in which failing workers acquire the lock. -/
def engineMsgs (remote : List Nat) (total_size num_threads : Nat)
    (parts0 : Nat → Option (List Nat)) (sched : Nat → List Attempt)
    (errOrder : List Nat) : List String :=
  errOrder.filterMap (fun i =>
    match (engineRuns remote total_size num_threads parts0 sched)[i]? with
    | some r => failMsg i r
    | none => none)

/-- The on-disk part files after all workers have joined: a worker that
never opened its part file leaves it absent, a worker that wrote leaves a
readable file. -/
def engineParts (remote : List Nat) (total_size num_threads : Nat)
    (parts0 : Nat → Option (List Nat)) (sched : Nat → List Attempt) :
    Nat → PartState := fun i =>
  match (engineRuns remote total_size num_threads parts0 sched)[i]? with
  | some r =>
    match r.file with
    | some c => .file c true
    | none => .absent
  | none => .absent

/-- Model of `_multi_threaded_download` (lines 125-163) plus the post-join branch:
plan the segments, run each worker, fold the failing workers' messages
into the error slot in lock-acquisition order `errOrder`, and then — only
when the slot is empty — merge the surviving part files in index order
and verify; on a recorded error merge and verify are skipped and no
destination is created. -/
def multi_threaded_download (remote : List Nat) (total_size num_threads : Nat)
    (parts0 : Nat → Option (List Nat)) (sched : Nat → List Attempt)
    (errOrder : List Nat) : EngineResult :=
  let runs := engineRuns remote total_size num_threads parts0 sched
  let total := (runs.map (fun r => r.adds.sum)).sum
  match recordErrors
      (engineMsgs remote total_size num_threads parts0 sched errOrder) with
  | some e => ⟨runs, total, some e, false, none, false⟩
  | none =>
    match merge_files (engineParts remote total_size num_threads parts0 sched)
        num_threads with
    | .ok d => ⟨runs, total, none, true, some d, true⟩
    | .error _ => ⟨runs, total, none, true, none, false⟩

/-- Python `int(s)` on a digit string (no sign): `some` of the value when
every character is a decimal digit and the string is nonempty. -/
def digitsToNat : List Char → Option Nat
  | [] => none
  | cs =>
    cs.foldl
      (fun acc c =>
        match acc with
        | none => none
        | some n => if c.isDigit then some (n * 10 + (c.toNat - 48)) else none)
      (some 0)

/-- Surrounding whitespace stripped from a character list. -/
def stripWs (cs : List Char) : List Char :=
  ((cs.dropWhile (fun c => c.isWhitespace)).reverse.dropWhile
    (fun c => c.isWhitespace)).reverse

/-- Python `int(s)` on a string: surrounding whitespace is stripped, an
optional single sign is allowed, the rest must be a nonempty digit run;
`none` models the `ValueError` raise. -/
def pyInt (s : String) : Option Int :=
  match stripWs s.toList with
  | '-' :: rest => (digitsToNat rest).map (fun n => -(n : Int))
  | '+' :: rest => (digitsToNat rest).map (fun n => (n : Int))
  | cs => (digitsToNat cs).map (fun n => (n : Int))

/-- Line 60: `int(head.headers.get('Content-Length', 0))`.  A missing
header yields the default `0` (already an int); a present header is a
string fed to `int`, which raises `ValueError` (`Except.error ()`) when it
does not parse. -/
def probe_total_size (contentLength : Option String) : Except Unit Int :=
  match contentLength with
  | none => .ok 0
  | some s =>
    match pyInt s with
    | some v => .ok v
    | none => .error ()

/-- The character run the server must advertise. -/
def bytesChars : List Char := ['b', 'y', 't', 'e', 's']

/-- Substring search for `bytesChars` over a character list. -/
def hasBytesSub : List Char → Bool
  | [] => false
  | c :: rest => ((c :: rest).take 5 == bytesChars) || hasBytesSub rest

/-- Line 61: `'bytes' in head.headers.get('Accept-Ranges', '').lower()`. -/
def accept_ranges (h : Option String) : Bool :=
  hasBytesSub (h.getD "").toLower.toList

/-- Relation holding when `a` is an initial run of `b` (the part file holds a byte-range head of
its segment's true content). -/
def takesFrom (a b : List Nat) : Prop := b.take a.length = a

instance (a b : List Nat) : Decidable (takesFrom a b) := by
  unfold takesFrom; infer_instance

/-! ## Helper lemmas -/

lemma sum_map_range {M : Type} [AddCommMonoid M] (f : Nat → M) :
    ∀ n, ((List.range n).map f).sum = ∑ i in Finset.range n, f i := by
  intro n
  induction n with
  | zero => simp
  | succ m ih =>
    rw [List.range_succ, List.map_append, List.sum_append,
      Finset.sum_range_succ, ih]
    simp

lemma seg_fst (T N i : Nat) : (seg T N i).1 = ((i * (T / N) : Nat) : Int) := by
  simp [seg]

lemma seg_snd_of_lt (T N i : Nat) (h : i < N - 1) :
    (seg T N i).2 = ((i * (T / N) : Nat) : Int) + ((T / N : Nat) : Int) - 1 := by
  simp [seg, h]

lemma seg_snd_last (T N : Nat) : (seg T N (N - 1)).2 = (T : Int) - 1 := by
  simp [seg]

lemma segments_getElem? (T N i : Nat) (h : i < N) :
    (segments T N)[i]? = some (seg T N i) := by
  simp [segments, List.getElem?_map, List.getElem?_range, h]

lemma segments_len_sum (T N : Nat) (hN : 1 ≤ N) :
    ((segments T N).map (fun p => p.2 - p.1 + 1)).sum = (T : Int) := by
  obtain ⟨m, rfl⟩ : ∃ m, N = m + 1 := ⟨N - 1, by omega⟩
  rw [segments, List.map_map, sum_map_range, Finset.sum_range_succ]
  have hlast : ((fun p => p.2 - p.1 + 1) ∘ seg T (m + 1)) m
      = (T : Int) - ((m * (T / (m + 1)) : Nat) : Int) := by
    simp only [Function.comp_apply]
    rw [seg_fst]
    have h := seg_snd_last T (m + 1)
    simp only [Nat.add_sub_cancel] at h
    rw [h]
    ring
  have hrest : ∀ i ∈ Finset.range m,
      ((fun p => p.2 - p.1 + 1) ∘ seg T (m + 1)) i
        = ((T / (m + 1) : Nat) : Int) := by
    intro i hi
    have h1 : i < m + 1 - 1 := by
      simpa using Finset.mem_range.mp hi
    simp only [Function.comp_apply]
    rw [seg_snd_of_lt T (m + 1) i h1, seg_fst]
    ring
  rw [Finset.sum_congr rfl hrest, hlast, Finset.sum_const, Finset.card_range]
  push_cast
  ring

/-- Claim C1: for every total size `T > 0` and worker count `N ≥ 1` the
planner produces exactly `N` segments, in index order; segment starts are
monotone and consecutive segments are contiguous; each of the first `N-1`
segments has length `T / N` (floor); the first segment starts at `0` and
the last ends at `T - 1`; distinct segments are disjoint; and the segment
lengths sum to `T`, so the segments partition `[0, T)`. -/
theorem c1_segments_partition (T N : Nat) (hT : 0 < T) (hN : 1 ≤ N) :
    (segments T N).length = N ∧
    (∀ i, i < N → (segments T N)[i]? = some (seg T N i)) ∧
    (seg T N 0).1 = 0 ∧
    (∀ i, i + 1 < N →
      (seg T N i).1 ≤ (seg T N (i + 1)).1 ∧
      (seg T N i).2 + 1 = (seg T N (i + 1)).1) ∧
    (∀ i, i < N - 1 → (seg T N i).2 - (seg T N i).1 + 1 = ((T / N : Nat) : Int)) ∧
    (seg T N (N - 1)).2 = (T : Int) - 1 ∧
    (∀ i j, i < j → j < N → (seg T N i).2 < (seg T N j).1) ∧
    ((segments T N).map (fun p => p.2 - p.1 + 1)).sum = (T : Int) := by
  refine ⟨by simp [segments], fun i hi => segments_getElem? T N i hi,
    by simp [seg], ?_, ?_, seg_snd_last T N, ?_, ?_⟩
  · intro i hi
    have h1 : i < N - 1 := by omega
    constructor
    · rw [seg_fst, seg_fst]
      have : i * (T / N) ≤ (i + 1) * (T / N) :=
        Nat.mul_le_mul_right _ (Nat.le_succ i)
      exact_mod_cast this
    · rw [seg_snd_of_lt T N i h1, seg_fst]
      push_cast
      ring
  · intro i hi
    rw [seg_snd_of_lt T N i hi, seg_fst]
    ring
  · intro i j hij hj
    have h1 : i < N - 1 := by omega
    rw [seg_snd_of_lt T N i h1, seg_fst]
    have h2 : (i + 1) * (T / N) ≤ j * (T / N) :=
      Nat.mul_le_mul_right _ (by omega)
    have h3 : ((i + 1) * (T / N) : Int) ≤ ((j * (T / N) : Nat) : Int) := by
      exact_mod_cast h2
    push_cast at h3 ⊢
    linarith
  · exact segments_len_sum T N hN

/-- Instantiation of `c1_segments_partition` at `T = 10`, `N = 3`. -/
theorem c1_segments_partition_witness :
    0 < 10 ∧ 1 ≤ 3 ∧
    ((segments 10 3).map (fun p => p.2 - p.1 + 1)).sum = (10 : Int) :=
  ⟨by decide, by decide, (c1_segments_partition 10 3 (by decide) (by decide)).2.2.2.2.2.2.2⟩

lemma recordErrors_eq_getLast? (l : List String) :
    recordErrors l = l.getLast? := by
  suffices h : ∀ o : Option String,
      l.foldl (fun _ e => some e) o = (l.getLast?).orElse (fun _ => o) by
    simpa [recordErrors] using h none
  induction l with
  | nil => intro o; simp
  | cons a t ih =>
    intro o
    rw [List.foldl_cons, ih (some a)]
    cases t with
    | nil => simp
    | cons b t' =>
      have hs : ((b :: t').getLast?).isSome := by
        rw [List.getLast?_isSome]
        simp
      obtain ⟨x, hx⟩ := Option.isSome_iff_exists.mp hs
      simp [List.getLast?_cons_cons, hx]

lemma engineRuns_getElem? (remote : List Nat) (total_size num_threads : Nat)
    (parts0 : Nat → Option (List Nat)) (sched : Nat → List Attempt)
    (i : Nat) (h : i < num_threads) :
    (engineRuns remote total_size num_threads parts0 sched)[i]?
      = some (download_segment remote (seg total_size num_threads i).1
          (seg total_size num_threads i).2 (parts0 i) (sched i)) := by
  simp [engineRuns, List.getElem?_map, List.getElem?_range, h]

lemma engine_error_occurred (remote : List Nat) (total_size num_threads : Nat)
    (parts0 : Nat → Option (List Nat)) (sched : Nat → List Attempt)
    (errOrder : List Nat) :
    (multi_threaded_download remote total_size num_threads parts0 sched
        errOrder).error_occurred
      = recordErrors
          (engineMsgs remote total_size num_threads parts0 sched errOrder) := by
  unfold multi_threaded_download
  cases h : recordErrors
      (engineMsgs remote total_size num_threads parts0 sched errOrder) with
  | some e => simp [h]
  | none =>
    simp only [h]
    cases merge_files (engineParts remote total_size num_threads parts0 sched)
        num_threads <;> simp

lemma engine_of_error (remote : List Nat) (total_size num_threads : Nat)
    (parts0 : Nat → Option (List Nat)) (sched : Nat → List Attempt)
    (errOrder : List Nat) (e : String)
    (h : recordErrors
        (engineMsgs remote total_size num_threads parts0 sched errOrder)
      = some e) :
    multi_threaded_download remote total_size num_threads parts0 sched errOrder
      = ⟨engineRuns remote total_size num_threads parts0 sched,
          ((engineRuns remote total_size num_threads parts0 sched).map
            (fun r => r.adds.sum)).sum,
          some e, false, none, false⟩ := by
  unfold multi_threaded_download
  simp [h]

lemma engine_of_merge_ok (remote : List Nat) (total_size num_threads : Nat)
    (parts0 : Nat → Option (List Nat)) (sched : Nat → List Attempt)
    (errOrder : List Nat) (d : List Nat)
    (h : recordErrors
        (engineMsgs remote total_size num_threads parts0 sched errOrder)
      = none)
    (hm : merge_files (engineParts remote total_size num_threads parts0 sched)
        num_threads = .ok d) :
    multi_threaded_download remote total_size num_threads parts0 sched errOrder
      = ⟨engineRuns remote total_size num_threads parts0 sched,
          ((engineRuns remote total_size num_threads parts0 sched).map
            (fun r => r.adds.sum)).sum,
          none, true, some d, true⟩ := by
  unfold multi_threaded_download
  simp [h, hm]

/-- Claim C2 fails on the code: line 204 assigns the error slot
unconditionally, so with both workers of a two-segment plan exhausting
their single attempt — worker 0 acquiring the lock first, worker 1 second
— the surfaced error is worker 1's message, not the first-recorded one. -/
theorem c2_first_write_wins_counterexample :
    (download_segment [1, 2, 3, 4] (seg 4 2 0).1 (seg 4 2 0).2 none
        [.connFail "a"]).outcome = .err "a" ∧
    (download_segment [1, 2, 3, 4] (seg 4 2 1).1 (seg 4 2 1).2 none
        [.connFail "b"]).outcome = .err "b" ∧
    engineMsgs [1, 2, 3, 4] 4 2 (fun _ => none)
        (fun i => [.connFail (if i = 0 then "a" else "b")]) [0, 1]
      = [segErrMsg 0 "a", segErrMsg 1 "b"] ∧
    (multi_threaded_download [1, 2, 3, 4] 4 2 (fun _ => none)
        (fun i => [.connFail (if i = 0 then "a" else "b")])
        [0, 1]).error_occurred = some (segErrMsg 1 "b") ∧
    segErrMsg 1 "b" ≠ segErrMsg 0 "a" := by
  refine ⟨by decide, by decide, by decide, by decide, by decide⟩

/-- Claim C2 amended: the shared fatal-error slot is last-write-wins —
every later recording under the lock overwrites the slot, and the error
the coordinator surfaces is the one recorded last in lock-acquisition
order. -/
theorem c2_amended_last_write_wins (remote : List Nat)
    (total_size num_threads : Nat) (parts0 : Nat → Option (List Nat))
    (sched : Nat → List Attempt) (errOrder : List Nat) :
    (multi_threaded_download remote total_size num_threads parts0 sched
        errOrder).error_occurred
      = (engineMsgs remote total_size num_threads parts0 sched
          errOrder).getLast? := by
  rw [engine_error_occurred, recordErrors_eq_getLast?]

lemma merge_files_succ (parts : Nat → PartState) (n : Nat) :
    merge_files parts (n + 1)
      = match merge_files parts n with
        | .error u => .error u
        | .ok out =>
          match parts n with
          | .absent => .ok out
          | .file c true => .ok (out ++ c)
          | .file _ false => .error () := by
  unfold merge_files
  rw [List.range_succ, List.foldl_append]
  rfl

lemma merge_files_ok_of_good (parts : Nat → PartState) (n : Nat)
    (h : ∀ i, i < n → (parts i).unreadable = false) :
    merge_files parts n
      = .ok (((List.range n).map (fun i => (parts i).contentD)).flatten) := by
  induction n with
  | zero => rfl
  | succ m ih =>
    rw [merge_files_succ, ih (fun i hi => h i (by omega)), List.range_succ,
      List.map_append, List.flatten_append]
    cases hp : parts m with
    | absent => simp [hp, PartState.contentD]
    | file c r =>
      cases r with
      | true => simp [hp, PartState.contentD]
      | false =>
        have hh := h m (by omega)
        rw [hp] at hh
        simp [PartState.unreadable] at hh

lemma merge_files_error_iff (parts : Nat → PartState) (n : Nat) :
    merge_files parts n = .error ()
      ↔ ∃ i, i < n ∧ (parts i).unreadable = true := by
  induction n with
  | zero =>
    constructor
    · intro h; exact Except.noConfusion h
    · rintro ⟨i, hi, _⟩; omega
  | succ m ih =>
    rw [merge_files_succ]
    cases hmerge : merge_files parts m with
    | error u =>
      cases u
      constructor
      · intro _
        obtain ⟨i, hi, hu⟩ := ih.mp hmerge
        exact ⟨i, by omega, hu⟩
      · intro _; rfl
    | ok out =>
      have hno : ∀ i, i < m → (parts i).unreadable = false := by
        intro i hi
        cases hx : (parts i).unreadable with
        | false => rfl
        | true =>
          rw [ih.mpr ⟨i, hi, hx⟩] at hmerge
          exact Except.noConfusion hmerge
      cases hp : parts m with
      | absent =>
        constructor
        · intro h; exact Except.noConfusion h
        · rintro ⟨i, hi, hu⟩
          rcases Nat.lt_succ_iff_lt_or_eq.mp hi with hlt | rfl
          · rw [hno i hlt] at hu; exact Bool.noConfusion hu
          · rw [hp] at hu; simp [PartState.unreadable] at hu
      | file c r =>
        cases r with
        | true =>
          constructor
          · intro h; exact Except.noConfusion h
          · rintro ⟨i, hi, hu⟩
            rcases Nat.lt_succ_iff_lt_or_eq.mp hi with hlt | rfl
            · rw [hno i hlt] at hu; exact Bool.noConfusion hu
            · rw [hp] at hu; simp [PartState.unreadable] at hu
        | false =>
          constructor
          · intro _; exact ⟨m, by omega, by rw [hp]; rfl⟩
          · intro _; rfl

/-- Claim C3 fails on the code: `_merge_files` guards each part with
`os.path.exists` and silently skips a missing part, so with part 0 absent
and part 1 readable it produces a destination from the remaining part
instead of failing with `IOError`. -/
theorem c3_merge_missing_counterexample :
    merge_files (fun i => if i = 1 then .file [5] true else .absent) 2
      = .ok [5] ∧
    merge_files (fun i => if i = 1 then .file [5] true else .absent) 2
      ≠ .error () := by
  have h1 : merge_files (fun i => if i = 1 then .file [5] true else .absent) 2
      = .ok [5] := rfl
  exact ⟨h1, by rw [h1]; exact fun h => Except.noConfusion h⟩

/-- Claim C3 amended: the merger silently skips missing part files and
concatenates the existing parts in index order; it fails with `IOError`
exactly when some part file with index below `n` exists but is
unreadable. -/
theorem c3_amended_merge_skips_missing (parts : Nat → PartState) (n : Nat) :
    (merge_files parts n = .error ()
      ↔ ∃ i, i < n ∧ (parts i).unreadable = true) ∧
    ((∀ i, i < n → (parts i).unreadable = false) →
      merge_files parts n
        = .ok (((List.range n).map (fun i => (parts i).contentD)).flatten)) :=
  ⟨merge_files_error_iff parts n, merge_files_ok_of_good parts n⟩

/-- Instantiation of `c3_amended_merge_skips_missing`: two parts, part 0
missing and part 1 readable, merge succeeds with part 1's bytes. -/
theorem c3_amended_merge_skips_missing_witness :
    (∀ i, i < 2 →
      ((fun j => if j = 1 then PartState.file [5] true else .absent) i).unreadable
        = false) ∧
    merge_files (fun j => if j = 1 then PartState.file [5] true else .absent) 2
      = .ok (((List.range 2).map
          (fun i => ((fun j => if j = 1 then PartState.file [5] true
            else .absent) i).contentD)).flatten) :=
  ⟨by decide,
    (c3_amended_merge_skips_missing
      (fun j => if j = 1 then PartState.file [5] true else .absent) 2).2
      (by decide)⟩

lemma download_segment_skip (remote : List Nat) (startI endI : Int)
    (part0 : Option (List Nat)) (attempts : List Attempt)
    (h : endI - startI + 1 ≤ (((part0.getD []).length : Nat) : Int)) :
    download_segment remote startI endI part0 attempts
      = ⟨part0, [(part0.getD []).length], 0, [], .ok⟩ := by
  unfold download_segment
  rw [if_pos h]

lemma engineRuns_length (remote : List Nat) (total_size num_threads : Nat)
    (parts0 : Nat → Option (List Nat)) (sched : Nat → List Attempt) :
    (engineRuns remote total_size num_threads parts0 sched).length
      = num_threads := by
  simp [engineRuns]

lemma engineParts_not_unreadable (remote : List Nat)
    (total_size num_threads : Nat) (parts0 : Nat → Option (List Nat))
    (sched : Nat → List Attempt) (i : Nat) :
    (engineParts remote total_size num_threads parts0 sched i).unreadable
      = false := by
  unfold engineParts
  cases (engineRuns remote total_size num_threads parts0 sched)[i]? with
  | none => rfl
  | some r => cases hf : r.file <;> simp [hf, PartState.unreadable]

lemma engineMsgs_nil_of_all_ok (remote : List Nat)
    (total_size num_threads : Nat) (parts0 : Nat → Option (List Nat))
    (sched : Nat → List Attempt) (errOrder : List Nat)
    (hok : ∀ i, i < num_threads →
      (download_segment remote (seg total_size num_threads i).1
          (seg total_size num_threads i).2 (parts0 i) (sched i)).outcome
        = .ok) :
    engineMsgs remote total_size num_threads parts0 sched errOrder = [] := by
  unfold engineMsgs
  rw [List.filterMap_eq_nil]
  intro a _
  by_cases ha : a < num_threads
  · rw [engineRuns_getElem? remote total_size num_threads parts0 sched a ha]
    simp only [failMsg]
    rw [hok a ha]
  · rw [List.getElem?_eq_none (by
      rw [engineRuns_length]
      omega)]

/-- Claim C5: a worker whose part file already covers its segment length
returns immediately as complete — zero network reads, zero sleeps, part
file untouched — and a whole engine run over segment-covering part files
records no error, issues no reads, merges and verifies, producing the
concatenation of the untouched parts. -/
theorem c5_resume_full_segment (remote : List Nat)
    (total_size num_threads : Nat) (parts0 : Nat → Option (List Nat))
    (sched : Nat → List Attempt) (errOrder : List Nat)
    (hfull : ∀ i, i < num_threads →
      (seg total_size num_threads i).2 - (seg total_size num_threads i).1 + 1
        ≤ ((((parts0 i).getD []).length : Nat) : Int)) :
    (∀ i, i < num_threads →
      download_segment remote (seg total_size num_threads i).1
          (seg total_size num_threads i).2 (parts0 i) (sched i)
        = ⟨parts0 i, [((parts0 i).getD []).length], 0, [], .ok⟩) ∧
    (multi_threaded_download remote total_size num_threads parts0 sched
        errOrder).error_occurred = none ∧
    (multi_threaded_download remote total_size num_threads parts0 sched
        errOrder).merged = true ∧
    (multi_threaded_download remote total_size num_threads parts0 sched
        errOrder).verifyRan = true ∧
    (multi_threaded_download remote total_size num_threads parts0 sched
        errOrder).destination
      = some (((List.range num_threads).map
          (fun i => (parts0 i).getD [])).flatten) := by
  have hworker : ∀ i, i < num_threads →
      download_segment remote (seg total_size num_threads i).1
          (seg total_size num_threads i).2 (parts0 i) (sched i)
        = ⟨parts0 i, [((parts0 i).getD []).length], 0, [], .ok⟩ :=
    fun i hi =>
      download_segment_skip remote _ _ (parts0 i) (sched i) (hfull i hi)
  have hmsgs : engineMsgs remote total_size num_threads parts0 sched errOrder
      = [] :=
    engineMsgs_nil_of_all_ok remote total_size num_threads parts0 sched
      errOrder (fun i hi => by rw [hworker i hi])
  have herr : recordErrors
      (engineMsgs remote total_size num_threads parts0 sched errOrder)
      = none := by rw [hmsgs]; rfl
  have hparts : ∀ i ∈ List.range num_threads,
      (engineParts remote total_size num_threads parts0 sched i).contentD
        = (parts0 i).getD [] := by
    intro i hi
    have hilt : i < num_threads := List.mem_range.mp hi
    unfold engineParts
    rw [engineRuns_getElem? remote total_size num_threads parts0 sched i hilt,
      hworker i hilt]
    cases parts0 i <;> rfl
  have hmerge : merge_files
      (engineParts remote total_size num_threads parts0 sched) num_threads
      = .ok (((List.range num_threads).map
          (fun i => (parts0 i).getD [])).flatten) := by
    rw [merge_files_ok_of_good _ _ (fun i _ =>
      engineParts_not_unreadable remote total_size num_threads parts0 sched i)]
    rw [List.map_congr_left hparts]
  have hres := engine_of_merge_ok remote total_size num_threads parts0 sched
    errOrder _ herr hmerge
  rw [hres]
  exact ⟨hworker, rfl, rfl, rfl, rfl⟩

/-- Instantiation of `c5_resume_full_segment`: a 4-byte resource split in
two, both part files already complete; the second run touches nothing and
reports success with the merged parts. -/
theorem c5_resume_full_segment_witness :
    (∀ i, i < 2 →
      (seg 4 2 i).2 - (seg 4 2 i).1 + 1
        ≤ (((((fun j => if j = 0 then some [9, 9] else some [8, 8]) :
              Nat → Option (List Nat)) i).getD []).length : Int)) ∧
    (multi_threaded_download [9, 9, 8, 8] 4 2
        (fun j => if j = 0 then some [9, 9] else some [8, 8])
        (fun _ => [.success]) [0]).error_occurred = none ∧
    (multi_threaded_download [9, 9, 8, 8] 4 2
        (fun j => if j = 0 then some [9, 9] else some [8, 8])
        (fun _ => [.success]) [0]).destination
      = some (((List.range 2).map
          (fun i => (((fun j => if j = 0 then some [9, 9] else some [8, 8]) :
            Nat → Option (List Nat)) i).getD [])).flatten) := by
  have h := c5_resume_full_segment [9, 9, 8, 8] 4 2
    (fun j => if j = 0 then some [9, 9] else some [8, 8])
    (fun _ => [.success]) [0] (by decide)
  exact ⟨by decide, h.2.1, h.2.2.2.2⟩

lemma getLast?_of_all_eq {α : Type} (a : α) :
    ∀ (l : List α), l ≠ [] → (∀ x ∈ l, x = a) → l.getLast? = some a := by
  intro l
  induction l with
  | nil => intro h; exact absurd rfl h
  | cons b t ih =>
    intro _ h
    cases t with
    | nil => rw [h b (by simp)]; simp
    | cons c t' =>
      rw [List.getLast?_cons_cons]
      exact ih (by simp) (fun x hx => h x (List.mem_cons_of_mem b hx))

lemma mem_of_getLast?_eq {α : Type} {l : List α} {a : α}
    (h : l.getLast? = some a) : a ∈ l := by
  induction l with
  | nil => exact Option.noConfusion h
  | cons b t ih =>
    cases t with
    | nil =>
      have hb : b = a := Option.some.inj h
      rw [hb]
      exact List.mem_singleton_self a
    | cons c t' =>
      rw [List.getLast?_cons_cons] at h
      exact List.mem_cons_of_mem b (ih h)

lemma failMsg_eq_some_iff (i : Nat) (r : WorkerRun) (m : String) :
    failMsg i r = some m ↔ ∃ e, r.outcome = .err e ∧ m = segErrMsg i e := by
  unfold failMsg
  cases ho : r.outcome with
  | ok => simp
  | fellThrough => simp
  | err e =>
    constructor
    · intro h
      exact ⟨e, rfl, (Option.some.inj h).symm⟩
    · rintro ⟨e2, he, hm⟩
      have : e = e2 := SegOutcome.err.inj he
      rw [hm, this]

/-- Claim C9: whenever some worker has recorded a fatal error, the
coordinator — after all workers join — skips both merge and verification,
never creates the destination file, and surfaces a recorded worker error;
when the failing worker is unique, the surfaced error is exactly that
worker's formatted message. -/
theorem c9_error_skips_merge_and_verify (remote : List Nat)
    (total_size num_threads : Nat) (parts0 : Nat → Option (List Nat))
    (sched : Nat → List Attempt) (errOrder : List Nat) (i : Nat) (e : String)
    (hi : i < num_threads) (hmem : i ∈ errOrder)
    (hfail : (download_segment remote (seg total_size num_threads i).1
        (seg total_size num_threads i).2 (parts0 i) (sched i)).outcome
      = .err e) :
    (multi_threaded_download remote total_size num_threads parts0 sched
        errOrder).merged = false ∧
    (multi_threaded_download remote total_size num_threads parts0 sched
        errOrder).destination = none ∧
    (multi_threaded_download remote total_size num_threads parts0 sched
        errOrder).verifyRan = false ∧
    (multi_threaded_download remote total_size num_threads parts0 sched
        errOrder).error_occurred ≠ none ∧
    (∀ m, (multi_threaded_download remote total_size num_threads parts0 sched
        errOrder).error_occurred = some m →
      ∃ j e2, j < num_threads ∧
        (download_segment remote (seg total_size num_threads j).1
          (seg total_size num_threads j).2 (parts0 j) (sched j)).outcome
          = .err e2 ∧
        m = segErrMsg j e2) ∧
    ((∀ j, j < num_threads → j ≠ i →
        ∀ e2, (download_segment remote (seg total_size num_threads j).1
          (seg total_size num_threads j).2 (parts0 j) (sched j)).outcome
          ≠ .err e2) →
      (multi_threaded_download remote total_size num_threads parts0 sched
        errOrder).error_occurred = some (segErrMsg i e)) := by
  set msgs := engineMsgs remote total_size num_threads parts0 sched errOrder
    with hmsgs
  have hin : segErrMsg i e ∈ msgs := by
    rw [hmsgs]
    unfold engineMsgs
    refine List.mem_filterMap.mpr ⟨i, hmem, ?_⟩
    rw [engineRuns_getElem? remote total_size num_threads parts0 sched i hi]
    simp only [failMsg, hfail]
  have hne : msgs ≠ [] := List.ne_nil_of_mem hin
  have hsome : (msgs.getLast?).isSome := List.getLast?_isSome.mpr hne
  obtain ⟨m0, hm0⟩ := Option.isSome_iff_exists.mp hsome
  have hrec : recordErrors msgs = some m0 := by
    rw [recordErrors_eq_getLast?, hm0]
  have hres := engine_of_error remote total_size num_threads parts0 sched
    errOrder m0 hrec
  have hmem_msgs : ∀ x ∈ msgs, ∃ j e2, j < num_threads ∧
      (download_segment remote (seg total_size num_threads j).1
        (seg total_size num_threads j).2 (parts0 j) (sched j)).outcome
        = .err e2 ∧ x = segErrMsg j e2 := by
    intro x hx
    rw [hmsgs] at hx
    unfold engineMsgs at hx
    obtain ⟨j, hjmem, hfm⟩ := List.mem_filterMap.mp hx
    by_cases hj : j < num_threads
    · rw [engineRuns_getElem? remote total_size num_threads parts0 sched j hj]
        at hfm
      obtain ⟨e2, he2, hx2⟩ := (failMsg_eq_some_iff j _ x).mp hfm
      exact ⟨j, e2, hj, he2, hx2⟩
    · rw [List.getElem?_eq_none (by rw [engineRuns_length]; omega)] at hfm
      exact Option.noConfusion hfm
  rw [hres]
  refine ⟨rfl, rfl, rfl, by simp, ?_, ?_⟩
  · intro m hm
    have : m0 = m := Option.some.inj hm
    exact this ▸ hmem_msgs m0 (mem_of_getLast?_eq hm0)
  · intro honly
    have hall : ∀ x ∈ msgs, x = segErrMsg i e := by
      intro x hx
      obtain ⟨j, e2, hj, he2, hx2⟩ := hmem_msgs x hx
      by_cases hji : j = i
      · subst hji
        rw [hfail] at he2
        have : e = e2 := SegOutcome.err.inj he2
        rw [hx2, this]
      · exact absurd he2 (honly j hj hji e2)
    have : msgs.getLast? = some (segErrMsg i e) :=
      getLast?_of_all_eq (segErrMsg i e) msgs hne hall
    rw [hm0] at this
    simp only [Option.some.injEq] at this
    rw [this]

/-- Instantiation of `c9_error_skips_merge_and_verify`: two segments of a
4-byte resource, worker 0 failing its single attempt and worker 1
succeeding; no merge, no destination, the surfaced error names segment 0. -/
theorem c9_error_skips_merge_and_verify_witness :
    (download_segment [1, 2, 3, 4] (seg 4 2 0).1 (seg 4 2 0).2 none
        [.connFail "x"]).outcome = .err "x" ∧
    (multi_threaded_download [1, 2, 3, 4] 4 2 (fun _ => none)
        (fun j => if j = 0 then [.connFail "x"] else [.success])
        [0, 1]).merged = false ∧
    (multi_threaded_download [1, 2, 3, 4] 4 2 (fun _ => none)
        (fun j => if j = 0 then [.connFail "x"] else [.success])
        [0, 1]).destination = none := by
  have h := c9_error_skips_merge_and_verify [1, 2, 3, 4] 4 2 (fun _ => none)
    (fun j => if j = 0 then [.connFail "x"] else [.success]) [0, 1] 0 "x"
    (by decide) (by decide) (by decide)
  exact ⟨by decide, h.1, h.2.1⟩

lemma download_segment_fresh_full (remote : List Nat)
    (hT : 0 < remote.length) (rest : List Attempt) :
    download_segment remote 0 ((remote.length : Int) - 1) none
        (.success :: rest)
      = ⟨some remote, [0, remote.length], 1, [], .ok⟩ := by
  unfold download_segment
  rw [if_neg (by
    simp only [Option.getD_none, List.length_nil, Nat.cast_zero, ge_iff_le,
      sub_zero]
    omega)]
  have hrb : rangeBytes remote (0 + (((none : Option (List Nat)).getD
      []).length : Int)) ((remote.length : Int) - 1) = remote := by
    unfold rangeBytes
    simp only [Option.getD_none, List.length_nil, Nat.cast_zero, add_zero,
      Int.toNat_zero, List.drop_zero, sub_zero]
    rw [show ((remote.length : Int) - 1 + 1) = (remote.length : Int) by ring]
    rw [Int.toNat_natCast, List.take_length]
  simp only [hrb, segLoop]
  simp

/-- Claim C10: with `0 < T < N` (more workers than bytes) the planner
yields `N - 1` zero-length segments `(0, -1)`; their workers return at
once without a network request and without creating a part file; the last
worker downloads the whole range `[0, T)`; and since the merger skips
non-existent part files the destination still equals the full content. -/
theorem c10_zero_length_segments (remote : List Nat) (num_threads : Nat)
    (parts0 : Nat → Option (List Nat)) (sched : Nat → List Attempt)
    (errOrder : List Nat)
    (hT : 0 < remote.length) (hTN : remote.length < num_threads)
    (hp : ∀ i, i < num_threads → parts0 i = none)
    (hs : ∃ rest, sched (num_threads - 1) = .success :: rest) :
    (∀ i, i < num_threads - 1 →
      seg remote.length num_threads i = (0, -1)) ∧
    (∀ i, i < num_threads - 1 →
      download_segment remote (seg remote.length num_threads i).1
          (seg remote.length num_threads i).2 (parts0 i) (sched i)
        = ⟨none, [0], 0, [], .ok⟩) ∧
    seg remote.length num_threads (num_threads - 1)
      = (0, (remote.length : Int) - 1) ∧
    (download_segment remote
        (seg remote.length num_threads (num_threads - 1)).1
        (seg remote.length num_threads (num_threads - 1)).2
        (parts0 (num_threads - 1)) (sched (num_threads - 1))).file
      = some remote ∧
    (multi_threaded_download remote remote.length num_threads parts0 sched
        errOrder).destination = some remote := by
  obtain ⟨rest, hrest⟩ := hs
  have hc : remote.length / num_threads = 0 := Nat.div_eq_of_lt hTN
  have hN2 : 2 ≤ num_threads := by omega
  have hseg0 : ∀ i, i < num_threads - 1 →
      seg remote.length num_threads i = (0, -1) := by
    intro i hi
    simp [seg, hc, hi]
  have hseglast : seg remote.length num_threads (num_threads - 1)
      = (0, (remote.length : Int) - 1) := by
    simp [seg, hc]
  have hzero : ∀ i, i < num_threads - 1 →
      download_segment remote (seg remote.length num_threads i).1
          (seg remote.length num_threads i).2 (parts0 i) (sched i)
        = ⟨none, [0], 0, [], .ok⟩ := by
    intro i hi
    rw [hseg0 i hi, hp i (by omega)]
    rw [download_segment_skip remote 0 (-1) none (sched i) (by simp)]
    rfl
  have hlastrun : download_segment remote
      (seg remote.length num_threads (num_threads - 1)).1
      (seg remote.length num_threads (num_threads - 1)).2
      (parts0 (num_threads - 1)) (sched (num_threads - 1))
      = ⟨some remote, [0, remote.length], 1, [], .ok⟩ := by
    rw [hseglast, hp (num_threads - 1) (by omega), hrest]
    exact download_segment_fresh_full remote hT rest
  have hok : ∀ i, i < num_threads →
      (download_segment remote (seg remote.length num_threads i).1
          (seg remote.length num_threads i).2 (parts0 i) (sched i)).outcome
        = .ok := by
    intro i hi
    by_cases hi1 : i < num_threads - 1
    · rw [hzero i hi1]
    · have : i = num_threads - 1 := by omega
      rw [this, hlastrun]
  have hmsgs := engineMsgs_nil_of_all_ok remote remote.length num_threads
    parts0 sched errOrder hok
  have herr : recordErrors (engineMsgs remote remote.length num_threads
      parts0 sched errOrder) = none := by rw [hmsgs]; rfl
  have hcontent : ∀ i ∈ List.range num_threads,
      (engineParts remote remote.length num_threads parts0 sched i).contentD
        = if i < num_threads - 1 then ([] : List Nat) else remote := by
    intro i hi
    have hilt : i < num_threads := List.mem_range.mp hi
    unfold engineParts
    rw [engineRuns_getElem? remote remote.length num_threads parts0 sched
      i hilt]
    by_cases hi1 : i < num_threads - 1
    · rw [hzero i hi1, if_pos hi1]
      rfl
    · have : i = num_threads - 1 := by omega
      rw [this, hlastrun, if_neg (by omega)]
      rfl
  have hmerge : merge_files
      (engineParts remote remote.length num_threads parts0 sched) num_threads
      = .ok remote := by
    rw [merge_files_ok_of_good _ _ (fun i _ =>
      engineParts_not_unreadable remote remote.length num_threads parts0
        sched i)]
    rw [List.map_congr_left hcontent]
    obtain ⟨m, hm⟩ : ∃ m, num_threads = m + 1 := ⟨num_threads - 1, by omega⟩
    subst hm
    rw [List.range_succ, List.map_append, List.flatten_append]
    have hm1 : ∀ i ∈ List.range m,
        (if i < m + 1 - 1 then ([] : List Nat) else remote) = [] := by
      intro i hi
      rw [if_pos (by simpa using List.mem_range.mp hi)]
    rw [List.map_congr_left hm1]
    simp
  have hres := engine_of_merge_ok remote remote.length num_threads parts0
    sched errOrder remote herr hmerge
  refine ⟨hseg0, hzero, hseglast, by rw [hlastrun], by rw [hres]⟩

/-- Instantiation of `c10_zero_length_segments`: a 2-byte resource split
across 3 workers. -/
theorem c10_zero_length_segments_witness :
    (∀ i, i < 3 - 1 → seg 2 3 i = (0, -1)) ∧
    (multi_threaded_download [3, 4] 2 3 (fun _ => none) (fun _ => [.success])
        []).destination = some [3, 4] := by
  have h := c10_zero_length_segments [3, 4] 3 (fun _ => none)
    (fun _ => [.success]) [] (by decide) (by decide)
    (fun i _ => rfl) ⟨[], rfl⟩
  exact ⟨h.1, h.2.2.2.2⟩

lemma sum_take_mono (l : List Nat) (n : Nat) :
    (l.take n).sum ≤ (l.take (n + 1)).sum := by
  rw [List.take_succ, List.sum_append]
  omega

lemma engine_total_downloaded (remote : List Nat)
    (total_size num_threads : Nat) (parts0 : Nat → Option (List Nat))
    (sched : Nat → List Attempt) (errOrder : List Nat) :
    (multi_threaded_download remote total_size num_threads parts0 sched
        errOrder).total_downloaded
      = ((engineRuns remote total_size num_threads parts0 sched).map
          (fun r => r.adds.sum)).sum := by
  unfold multi_threaded_download
  cases recordErrors
      (engineMsgs remote total_size num_threads parts0 sched errOrder) with
  | some e => rfl
  | none =>
    cases merge_files (engineParts remote total_size num_threads parts0 sched)
        num_threads <;> rfl

lemma segLoop_no_midFail_ok (app : Bool) (rb : List Nat) :
    ∀ (attempts : List Attempt) (f : Option (List Nat)) (idx : Nat),
      attempts.all (fun a => ! a.isMidFail) = true →
      (segLoop app rb f idx attempts).outcome = .ok →
      (segLoop app rb f idx attempts).adds.sum = rb.length ∧
      (segLoop app rb f idx attempts).file
        = some ((if app then f.getD [] else []) ++ rb) := by
  intro attempts
  induction attempts with
  | nil => intro f idx _ h; exact absurd h (by simp [segLoop])
  | cons a rest ih =>
    intro f idx hall hok
    rw [List.all_cons, Bool.and_eq_true] at hall
    cases a with
    | success => constructor <;> simp [segLoop]
    | connFail e =>
      cases rest with
      | nil =>
        exfalso
        simp [segLoop] at hok
      | cons b t =>
        have hok' : (segLoop app rb f (idx + 1) (b :: t)).outcome = .ok := hok
        exact ih f (idx + 1) hall.2 hok'
    | midFail k e =>
      exfalso
      simp [Attempt.isMidFail] at hall

lemma rangeBytes_length (remote : List Nat) (a b : Int) (ha : 0 ≤ a)
    (hb : b + 1 ≤ (remote.length : Int)) :
    (rangeBytes remote a b).length = (b - a + 1).toNat := by
  unfold rangeBytes
  rw [List.length_take, List.length_drop]
  omega

lemma download_segment_fresh_counted (remote : List Nat) (startI endI : Int)
    (attempts : List Attempt)
    (hnm : attempts.all (fun a => ! a.isMidFail) = true)
    (hok : (download_segment remote startI endI none attempts).outcome = .ok)
    (ha : 0 ≤ startI) (hb : endI + 1 ≤ (remote.length : Int)) :
    (download_segment remote startI endI none attempts).adds.sum
      = (endI - startI + 1).toNat := by
  unfold download_segment at hok ⊢
  by_cases hc : ((((none : Option (List Nat)).getD []).length : Nat) : Int)
      ≥ endI - startI + 1
  · rw [if_pos hc]
    simp only [Option.getD_none, List.length_nil, Nat.cast_zero,
      ge_iff_le] at hc
    simp only [Option.getD_none, List.length_nil, List.sum_cons,
      List.sum_nil]
    omega
  · rw [if_neg hc] at hok ⊢
    have hloop := segLoop_no_midFail_ok
      (decide (0 < ((none : Option (List Nat)).getD []).length))
      (rangeBytes remote (startI + (((none : Option (List Nat)).getD
        []).length : Int)) endI)
      attempts none 0 hnm hok
    simp only [List.sum_cons, hloop.1]
    simp only [Option.getD_none, List.length_nil, Nat.cast_zero,
      ge_iff_le, not_le] at hc ⊢
    rw [rangeBytes_length remote _ endI (by omega) hb]
    omega

lemma seg_snd_add_one_le (T N i : Nat) (hN : 1 ≤ N) (hi : i < N) :
    (seg T N i).2 + 1 ≤ (T : Int) := by
  by_cases h1 : i < N - 1
  · rw [seg_snd_of_lt T N i h1]
    have h2 : (i + 1) * (T / N) ≤ N * (T / N) :=
      Nat.mul_le_mul_right _ (by omega)
    have h3 : N * (T / N) ≤ T := by
      calc N * (T / N) = T / N * N := Nat.mul_comm _ _
        _ ≤ T := Nat.div_mul_le_self T N
    have : ((i + 1) * (T / N) : Int) ≤ (T : Int) := by exact_mod_cast le_trans h2 h3
    push_cast at this ⊢
    linarith
  · have : i = N - 1 := by omega
    rw [this, seg_snd_last]
    omega

lemma seg_fst_nonneg (T N i : Nat) : 0 ≤ (seg T N i).1 := by
  rw [seg_fst]
  exact Int.natCast_nonneg _

lemma seg_len_nonneg (T N i : Nat) (hN : 1 ≤ N) (hi : i < N) :
    0 ≤ (seg T N i).2 - (seg T N i).1 + 1 := by
  by_cases h1 : i < N - 1
  · rw [seg_snd_of_lt T N i h1, seg_fst]
    have : (0 : Int) ≤ ((T / N : Nat) : Int) := Int.natCast_nonneg _
    linarith
  · have h2 : i = N - 1 := by omega
    rw [h2, seg_snd_last, seg_fst]
    have h3 : (N - 1) * (T / N) ≤ T := by
      calc (N - 1) * (T / N) ≤ N * (T / N) :=
            Nat.mul_le_mul_right _ (by omega)
        _ = T / N * N := Nat.mul_comm _ _
        _ ≤ T := Nat.div_mul_le_self T N
    have h4 : (((N - 1) * (T / N) : Nat) : Int) ≤ (T : Int) := by
      exact_mod_cast h3
    linarith

/-- Claim C4 fails on the code: the range header, file mode and counted
bytes are all fixed before the retry loop, so a fresh single-segment run
whose attempt fails mid-stream after two delivered bytes and then
succeeds on retry re-downloads from the original offset and
double-counts.  The run succeeds and the destination holds the full
4 bytes, but the shared counter finishes at 6 — above both the bytes on
disk and the total size, instead of equal to the total size. -/
theorem c4_progress_counter_counterexample :
    (multi_threaded_download [0, 1, 2, 3] 4 1 (fun _ => none)
        (fun _ => [.midFail 2 "boom", .success, .success]) [0]).error_occurred
      = none ∧
    (multi_threaded_download [0, 1, 2, 3] 4 1 (fun _ => none)
        (fun _ => [.midFail 2 "boom", .success, .success]) [0]).destination
      = some [0, 1, 2, 3] ∧
    (multi_threaded_download [0, 1, 2, 3] 4 1 (fun _ => none)
        (fun _ => [.midFail 2 "boom", .success, .success]) [0]).total_downloaded
      = 6 ∧
    (((multi_threaded_download [0, 1, 2, 3] 4 1 (fun _ => none)
        (fun _ => [.midFail 2 "boom", .success, .success])
        [0]).destination).getD []).length = 4 ∧
    ¬ ((multi_threaded_download [0, 1, 2, 3] 4 1 (fun _ => none)
        (fun _ => [.midFail 2 "boom", .success, .success])
        [0]).total_downloaded ≤ 4) := by
  refine ⟨by decide, by decide, by decide, by decide, by decide⟩

/-- Claim C4 amended: the counter increments are all non-negative, so its
running sums never decrease; and in executions with no mid-stream failure
(every failed attempt dies before any chunk is written) a fresh,
all-successful run finishes with the counter exactly equal to the total
size.  (With a mid-stream failure that is retried, the counter can exceed
both the bytes on disk and the total size.) -/
theorem c4_amended_progress_monotone_and_exact (remote : List Nat)
    (num_threads : Nat) (parts0 : Nat → Option (List Nat))
    (sched : Nat → List Attempt) (errOrder : List Nat)
    (hN : 1 ≤ num_threads)
    (hp : ∀ i, i < num_threads → parts0 i = none)
    (hnomid : ∀ i, i < num_threads →
      (sched i).all (fun a => ! a.isMidFail) = true)
    (hok : ∀ i, i < num_threads →
      (download_segment remote (seg remote.length num_threads i).1
          (seg remote.length num_threads i).2 (parts0 i) (sched i)).outcome
        = .ok) :
    (∀ i, i < num_threads → ∀ n,
      ((download_segment remote (seg remote.length num_threads i).1
          (seg remote.length num_threads i).2 (parts0 i)
          (sched i)).adds.take n).sum
        ≤ ((download_segment remote (seg remote.length num_threads i).1
            (seg remote.length num_threads i).2 (parts0 i)
            (sched i)).adds.take (n + 1)).sum) ∧
    (multi_threaded_download remote remote.length num_threads parts0 sched
        errOrder).total_downloaded = remote.length := by
  constructor
  · intro i _ n
    exact sum_take_mono _ n
  · rw [engine_total_downloaded]
    unfold engineRuns
    rw [List.map_map, sum_map_range]
    have hcount : ∀ i ∈ Finset.range num_threads,
        ((fun r => r.adds.sum) ∘ fun i =>
          download_segment remote (seg remote.length num_threads i).1
            (seg remote.length num_threads i).2 (parts0 i) (sched i)) i
          = ((seg remote.length num_threads i).2
              - (seg remote.length num_threads i).1 + 1).toNat := by
      intro i hi
      have hilt : i < num_threads := Finset.mem_range.mp hi
      simp only [Function.comp_apply]
      have hoki := hok i hilt
      rw [hp i hilt] at hoki ⊢
      exact download_segment_fresh_counted remote _ _ (sched i)
        (hnomid i hilt) hoki (seg_fst_nonneg _ _ _)
        (seg_snd_add_one_le remote.length num_threads i hN hilt)
    rw [Finset.sum_congr rfl hcount]
    have hcast : ((∑ i in Finset.range num_threads,
        ((seg remote.length num_threads i).2
          - (seg remote.length num_threads i).1 + 1).toNat : Nat) : Int)
        = (remote.length : Int) := by
      push_cast
      rw [Finset.sum_congr rfl (fun i hi => Int.toNat_of_nonneg
        (seg_len_nonneg remote.length num_threads i hN
          (Finset.mem_range.mp hi)))]
      have := segments_len_sum remote.length num_threads hN
      rw [segments, List.map_map, sum_map_range] at this
      simpa using this
    exact_mod_cast hcast

/-- Instantiation of `c4_amended_progress_monotone_and_exact`: two fresh
workers over a 4-byte resource, each failing once at connection level and
then succeeding; the counter finishes exactly at 4. -/
theorem c4_amended_progress_monotone_and_exact_witness :
    (∀ i, i < 2 →
      (([.connFail "x", .success, .success] : List Attempt)).all
        (fun a => ! a.isMidFail) = true) ∧
    (multi_threaded_download [0, 1, 2, 3] 4 2 (fun _ => none)
        (fun _ => [.connFail "x", .success, .success])
        [0, 1]).total_downloaded = 4 := by
  have h := c4_amended_progress_monotone_and_exact [0, 1, 2, 3] 2
    (fun _ => none) (fun _ => [.connFail "x", .success, .success]) [0, 1]
    (by decide) (fun i _ => rfl) (fun i _ => rfl) (fun i hi => by
      interval_cases i <;> decide)
  exact ⟨fun i _ => by decide, h.2⟩

/-- Claim C6 states the part-file invariant the code's resume machinery
is meant to maintain, and the code breaks it: the range header and the
append mode are computed once before the retry loop, so after a 1-byte
resume (a correct range head of the segment), a first attempt that
appends one byte and dies mid-stream, and a successful retry, the retry
re-sends the stale range and appends duplicate bytes.  The worker reports
success, but the part file `[10, 11, 11, 12, 13]` is no longer a
byte-range head of the segment's true content `[10, 11, 12, 13]`. -/
theorem c6_part_file_range_head_violated :
    takesFrom ((some [10] : Option (List Nat)).getD [])
      (rangeBytes [10, 11, 12, 13] 0 3) ∧
    (download_segment [10, 11, 12, 13] 0 3 (some [10])
        [.midFail 1 "reset", .success, .success]).outcome = .ok ∧
    (download_segment [10, 11, 12, 13] 0 3 (some [10])
        [.midFail 1 "reset", .success, .success]).file
      = some [10, 11, 11, 12, 13] ∧
    ¬ takesFrom
        (((download_segment [10, 11, 12, 13] 0 3 (some [10])
          [.midFail 1 "reset", .success, .success]).file).getD [])
        (rangeBytes [10, 11, 12, 13] 0 3) := by
  refine ⟨by decide, by decide, by decide, by decide⟩

/-- Claim C7 fails on the code: `_single_threaded_download` wraps its one
`requests.get` in a try/except with no loop, so against a network that
fails the first request but would satisfy a second, the fallback reports
a download error after a single request with no back-off sleep and no
destination, while a segmented worker under the same schedule and a
retry limit of 2 retries and succeeds. -/
theorem c7_single_fallback_counterexample :
    (single_threaded_download [7] none [.connFail "boom", .success]).errored
      = some "boom" ∧
    (single_threaded_download [7] none [.connFail "boom", .success]).reads
      = 1 ∧
    (single_threaded_download [7] none [.connFail "boom", .success]).sleeps
      = [] ∧
    (single_threaded_download [7] none
        [.connFail "boom", .success]).destination = none ∧
    (download_segment [7] 0 0 none [.connFail "boom", .success]).outcome
      = .ok := by
  refine ⟨by decide, by decide, by decide, by decide, by decide⟩

/-- Claim C7 amended: the single-segment fallback issues exactly one
request per invocation, never sleeps, and does not retry: a connection
failure leaves the part file untouched and reports the error, a
mid-stream failure keeps the delivered bytes and reports the error, and
only a fully streamed response renames the part file onto the
destination. -/
theorem c7_amended_single_fallback_one_shot (remote : List Nat)
    (part0 : Option (List Nat)) (a : Attempt) (rest : List Attempt) :
    (single_threaded_download remote part0 (a :: rest)).reads = 1 ∧
    (single_threaded_download remote part0 (a :: rest)).sleeps = [] ∧
    (∀ e, a = .connFail e →
      single_threaded_download remote part0 (a :: rest)
        = ⟨part0, none, (part0.getD []).length, 1, [], some e⟩) ∧
    (∀ k e, a = .midFail k e →
      (single_threaded_download remote part0 (a :: rest)).errored = some e ∧
      (single_threaded_download remote part0 (a :: rest)).destination
        = none) ∧
    (a = .success →
      (single_threaded_download remote part0 (a :: rest)).errored = none ∧
      (single_threaded_download remote part0 (a :: rest)).partFile = none ∧
      (single_threaded_download remote part0 (a :: rest)).destination
        = some ((if 0 < (part0.getD []).length then part0.getD [] else [])
            ++ remote.drop (part0.getD []).length)) := by
  cases a with
  | connFail e =>
    refine ⟨rfl, rfl, ?_, ?_, ?_⟩
    · intro e2 he
      rw [Attempt.connFail.inj he]
      rfl
    · intro k e2 he; exact Attempt.noConfusion he
    · intro he; exact Attempt.noConfusion he
  | midFail k e =>
    refine ⟨rfl, rfl, ?_, ?_, ?_⟩
    · intro e2 he; exact Attempt.noConfusion he
    · intro k2 e2 he
      obtain ⟨hk, he2⟩ := Attempt.midFail.inj he
      subst hk; subst he2
      exact ⟨rfl, rfl⟩
    · intro he; exact Attempt.noConfusion he
  | success =>
    refine ⟨rfl, rfl, ?_, ?_, ?_⟩
    · intro e2 he; exact Attempt.noConfusion he
    · intro k2 e2 he; exact Attempt.noConfusion he
    · intro _; exact ⟨rfl, rfl, rfl⟩

/-- Instantiation of `c7_amended_single_fallback_one_shot` at a failing
connection attempt. -/
theorem c7_amended_single_fallback_one_shot_witness :
    (Attempt.connFail "x" = Attempt.connFail "x") ∧
    single_threaded_download [7] none [.connFail "x"]
      = ⟨none, none, 0, 1, [], some "x"⟩ :=
  ⟨rfl,
    (c7_amended_single_fallback_one_shot [7] none (.connFail "x") []).2.2.1
      "x" rfl⟩

lemma hasBytesSub_iff (cs : List Char) :
    hasBytesSub cs = true ↔ ∃ l r, cs = l ++ bytesChars ++ r := by
  induction cs with
  | nil =>
    constructor
    · intro h; exact Bool.noConfusion h
    · rintro ⟨l, r, h⟩
      obtain ⟨-, h2⟩ := List.append_eq_nil.mp
        (by rw [List.append_assoc] at h; exact h.symm)
      obtain ⟨h3, -⟩ := List.append_eq_nil.mp h2
      exact List.noConfusion (show bytesChars = [] from h3)
  | cons c rest ih =>
    rw [hasBytesSub, Bool.or_eq_true, beq_iff_eq, ih]
    constructor
    · rintro (htake | ⟨l, r, rfl⟩)
      · refine ⟨[], (c :: rest).drop 5, ?_⟩
        rw [List.nil_append, ← htake, List.take_append_drop]
      · exact ⟨c :: l, r, rfl⟩
    · rintro ⟨l, r, hc⟩
      cases l with
      | nil =>
        left
        rw [List.nil_append] at hc
        rw [hc]
        exact List.take_left' rfl
      | cons x l' =>
        right
        rw [List.cons_append] at hc
        exact ⟨l', r, (List.cons.inj hc).2⟩

/-- Claim C8 fails on the code: line 60 feeds a present `Content-Length`
header straight to `int`, so a malformed value such as `"abc"` raises
`ValueError` (uncaught — the surrounding except clause only catches
request exceptions) instead of being recorded as size 0. -/
theorem c8_probe_size_counterexample :
    probe_total_size (some "abc") = .error () ∧
    probe_total_size (some "abc") ≠ .ok 0 := by
  have h1 : probe_total_size (some "abc") = .error () := rfl
  exact ⟨h1, by rw [h1]; exact fun h => Except.noConfusion h⟩

/-- Claim C8 amended: the recorded total size is 0 when the length header
is absent and the parsed value when it parses, but a present unparseable
header raises `ValueError`; supports-ranges holds exactly when the
lower-cased `Accept-Ranges` header contains the substring `bytes`. -/
theorem c8_amended_probe (h : Option String) (s : String) (v : Int) :
    probe_total_size none = .ok 0 ∧
    (pyInt s = some v → probe_total_size (some s) = .ok v) ∧
    (pyInt s = none → probe_total_size (some s) = .error ()) ∧
    (accept_ranges h = true ↔
      ∃ l r, ((h.getD "").toLower.toList) = l ++ bytesChars ++ r) := by
  refine ⟨rfl, ?_, ?_, ?_⟩
  · intro hp
    show (match pyInt s with
      | some v => Except.ok v
      | none => Except.error ()) = Except.ok v
    rw [hp]
  · intro hp
    show (match pyInt s with
      | some v => Except.ok v
      | none => Except.error ()) = Except.error ()
    rw [hp]
  · unfold accept_ranges
    exact hasBytesSub_iff _

/-- Instantiation of `c8_amended_probe`: the header value `"123"` parses
and is recorded as 123. -/
theorem c8_amended_probe_witness :
    pyInt "123" = some 123 ∧ probe_total_size (some "123") = .ok 123 :=
  ⟨rfl, (c8_amended_probe none "123" 123).2.1 rfl⟩

end DownloadApp
